import Mathlib

/-!
# Verification of the RAG core (chunker, vector store, search, service)

Shallow embedding of the Go `rag` package.  Go `float32`/`float64`
arithmetic is idealised as arithmetic in an arbitrary linearly ordered
field `α`, and `math.Sqrt` as an uninterpreted function `sqrt : α → α`;
every theorem is stated generically in `α` and `sqrt`, so it holds in
particular for the real numbers with the real square root.  Witnesses
instantiate `α := ℚ` with concrete data.  Go strings are sequences of
runes (`List Char`); where the source manipulates raw bytes we convert
through an explicit UTF-8 encoder.
-/

namespace Rag

/-- Go string, as its sequence of runes. -/
abbrev GoStr := List Char

/-- The `Chunk` from the source data model (src/unnamed/part_002): a slice of a
document used for retrieval.  `embedding` is the vector assigned by the
build pipeline, `[]` while absent. -/
structure Chunk (α : Type) where
  id : GoStr
  documentId : GoStr
  source : GoStr
  uri : GoStr
  text : GoStr
  index : Int
  embedding : List α
deriving DecidableEq

/-- The `Metadata` from the source data model.  `generatedAt` (Go `time.Time`)
is idealised by its serialized representation, an opaque string. -/
structure Metadata where
  generatedAt : GoStr
  sourceCount : Int
  chunkCount : Int
  notes : List GoStr
deriving DecidableEq

/-- The `VectorStore` from the source data model. -/
structure VectorStore (α : Type) where
  metadata : Metadata
  chunks : List (Chunk α)
deriving DecidableEq

/-- The `SearchResult` from the source data model. -/
structure SearchResult (α : Type) where
  chunk : Chunk α
  score : α
deriving DecidableEq

variable {α : Type} [LinearOrderedField α]

/-- Mathematical dot product of two vectors (for stating specifications). -/
def dotProd : List α → List α → α
  | a :: as, b :: bs => a * b + dotProd as bs
  | _, _ => 0

/-- Sum of squares of a vector: `dotProd a a`. -/
def sumSq (a : List α) : α := dotProd a a

/-- The accumulator loop of `cosineSimilarity` (src/unnamed/part_001
lines 321–336): the first arm is the 4-way unrolled block (`for i < n-3`),
the second the remainder loop; it returns `(dot, magA, magB)`.
Left-to-right float accumulation is idealised as exact field addition. -/
def dotMags : List α → List α → α × α × α
  | a0 :: a1 :: a2 :: a3 :: ar, b0 :: b1 :: b2 :: b3 :: br =>
    let r := dotMags ar br
    (a0 * b0 + a1 * b1 + a2 * b2 + a3 * b3 + r.1,
     a0 * a0 + a1 * a1 + a2 * a2 + a3 * a3 + r.2.1,
     b0 * b0 + b1 * b1 + b2 * b2 + b3 * b3 + r.2.2)
  | a0 :: ar, b0 :: br =>
    let r := dotMags ar br
    (a0 * b0 + r.1, a0 * a0 + r.2.1, b0 * b0 + r.2.2)
  | _, _ => (0, 0, 0)

/-- The `cosineSimilarity` (src/unnamed/part_001 lines 311–342): guard on
empty or length-mismatched inputs, then `dot / (sqrt magA * sqrt magB)`
with a zero result when either magnitude accumulator is zero. -/
def cosineSimilarity (sqrt : α → α) (a b : List α) : α :=
  if a.length = 0 ∨ b.length = 0 ∨ a.length ≠ b.length then 0
  else
    let m := dotMags a b
    if m.2.1 = 0 ∨ m.2.2 = 0 then 0
    else m.1 / (sqrt m.2.1 * sqrt m.2.2)

/-- The `Item` of the `PriorityQueue` (src/unnamed/part_001 lines 345–349). -/
structure Item (α : Type) where
  chunk : Chunk α
  score : α
  index : Int
deriving DecidableEq

/-- Zero-valued `Chunk` (only used as the out-of-range default of list
reads; all reads in the heap code are in range). -/
def dChunk : Chunk α := ⟨[], [], [], [], [], 0, []⟩

/-- Zero-valued `Item`, default for out-of-range list reads. -/
def dItem : Item α := ⟨dChunk, 0, 0⟩

/-- The `PriorityQueue.Less` (src/unnamed/part_001 lines 355–358): min-heap
ordering, lower score has higher priority. -/
def pqLess (l : List (Item α)) (i j : Nat) : Prop :=
  (l.getD i dItem).score < (l.getD j dItem).score

instance pqLessDec (l : List (Item α)) (i j : Nat) : Decidable (pqLess l i j) := by
  unfold pqLess; infer_instance

/-- The `PriorityQueue.Swap` (src/unnamed/part_001 lines 360–364): swaps the
two entries and rewrites their `index` bookkeeping fields. -/
def pqSwap (l : List (Item α)) (i j : Nat) : List (Item α) :=
  let xi := l.getD i dItem
  let xj := l.getD j dItem
  (l.set i { xj with index := (i : Int) }).set j { xi with index := (j : Int) }

/-- The loop of `container/heap`'s sift-up `up(h, j)`, with fuel (the
parent index `(j-1)/2` strictly decreases, so `j+1` steps suffice). -/
def heapUpGo : Nat → List (Item α) → Nat → List (Item α)
  | 0, l, _ => l
  | fuel + 1, l, j =>
    let i := (j - 1) / 2
    if i = j ∨ ¬ pqLess l j i then l
    else heapUpGo fuel (pqSwap l i j) i

/-- The `container/heap`'s `up(h, j)`. -/
def heapUp (l : List (Item α)) (j : Nat) : List (Item α) := heapUpGo (j + 1) l j

/-- The loop of `container/heap`'s sift-down `down(h, i, n)`, with fuel
(the index strictly increases below `n`, so `n` steps suffice). -/
def heapDownGo : Nat → List (Item α) → Nat → Nat → List (Item α)
  | 0, l, _, _ => l
  | fuel + 1, l, i, n =>
    let j1 := 2 * i + 1
    if j1 ≥ n then l
    else
      let j := if j1 + 1 < n ∧ pqLess l (j1 + 1) j1 then j1 + 1 else j1
      if ¬ pqLess l j i then l
      else heapDownGo fuel (pqSwap l i j) j n

/-- The `container/heap`'s `down(h, i, n)` (its boolean result is unused by
this code path and dropped). -/
def heapDown (l : List (Item α)) (i n : Nat) : List (Item α) := heapDownGo n l i n

/-- The loop of `container/heap`'s `Init`: `down` at `n/2-1, …, 0`. -/
def heapInitGo : Nat → List (Item α) → List (Item α)
  | 0, l => l
  | i + 1, l => heapInitGo i (heapDown l i l.length)

/-- The `container/heap`'s `Init(h)`. -/
def heapInit (l : List (Item α)) : List (Item α) := heapInitGo (l.length / 2) l

/-- The `container/heap`'s `Push`: the interface `Push` sets the new item's
`index` to the old length and appends (src/unnamed/part_001 lines
366–371), then `up` at the last position. -/
def heapPush (l : List (Item α)) (x : Item α) : List (Item α) :=
  heapUp (l ++ [{ x with index := (l.length : Int) }]) l.length

/-- The `container/heap`'s `Pop`: swap root and last, `down` over the prefix,
then the interface `Pop` removes and returns the last entry with its
`index` set to `-1` (src/unnamed/part_001 lines 373–381). -/
def heapPop (l : List (Item α)) : Item α × List (Item α) :=
  let n := l.length - 1
  let l2 := heapDown (pqSwap l 0 n) 0 n
  let x := l2.getD n dItem
  ({ x with index := -1 }, l2.take n)

/-- The candidate loop of the heap-based `Search` (src/unnamed/part_001
lines 271–291): push while the heap holds fewer than `topK` items,
otherwise replace the root only when the candidate's score is strictly
greater than the root's. -/
def searchLoop (sqrt : α → α) (query : List α) (k : Int) :
    List (Chunk α) → List (Item α) → List (Item α)
  | [], pq => pq
  | c :: rest, pq =>
    let score := cosineSimilarity sqrt query c.embedding
    let pq' :=
      if (pq.length : Int) < k then heapPush pq ⟨c, score, 0⟩
      else
        let worst := pq.getD 0 dItem
        if worst.score < score then heapPush (heapPop pq).2 ⟨c, score, 0⟩
        else pq
    searchLoop sqrt query k rest pq'

/-- The drain loop of the heap-based `Search` (src/unnamed/part_001 lines
294–301): successive `heap.Pop`s; the pops fill the result array from its
last index down to 0. -/
def popAllGo : Nat → List (Item α) → List (Item α)
  | 0, _ => []
  | fuel + 1, l =>
    let p := heapPop l
    p.1 :: popAllGo fuel p.2

/-- The heap-based `Search` (src/unnamed/part_001 lines 256–309): nil/empty
guards, `topK ≤ 0` coerced to 4, bounded min-heap selection, drain filling
the result array back-to-front, then an explicit in-place reversal. -/
def searchHeap (sqrt : α → α) (vs : Option (VectorStore α)) (query : List α)
    (topK : Int) : List (SearchResult α) :=
  match vs with
  | none => []
  | some vs =>
    if query.length = 0 then []
    else
      let k : Int := if topK ≤ 0 then 4 else topK
      if vs.chunks.length = 0 then []
      else
        let pq := searchLoop sqrt query k vs.chunks (heapInit [])
        let results :=
          ((popAllGo pq.length pq).map fun it => SearchResult.mk it.chunk it.score).reverse
        results.reverse

/-- The comparator-driven sort of the earlier sort-and-slice `Search`
(src/unnamed/part_001 lines 144–148): `sort.Slice` with
`results[i].Score > results[j].Score`.  `sort.Slice` promises only a
sorted permutation; it is modelled as an insertion sort for that
comparator, which agrees with any sorted permutation whenever the scores
are pairwise distinct. -/
def insertDesc (x : SearchResult α) : List (SearchResult α) → List (SearchResult α)
  | [] => [x]
  | y :: ys => if y.score < x.score then x :: y :: ys else y :: insertDesc x ys

/-- The `sortByScore` (src/unnamed/part_001 lines 144–148), see `insertDesc`. -/
def sortByScore (l : List (SearchResult α)) : List (SearchResult α) :=
  l.foldr insertDesc []

/-- The sort-and-slice `Search` (src/unnamed/part_001 lines 107–124):
score every chunk, sort descending, truncate to `topK`. -/
def searchSort (sqrt : α → α) (vs : Option (VectorStore α)) (query : List α)
    (topK : Int) : List (SearchResult α) :=
  match vs with
  | none => []
  | some vs =>
    if query.length = 0 then []
    else
      let k : Int := if topK ≤ 0 then 4 else topK
      let results :=
        vs.chunks.map fun c => SearchResult.mk c (cosineSimilarity sqrt query c.embedding)
      let sorted := sortByScore results
      if (sorted.length : Int) > k then sorted.take k.toNat else sorted

/-! Concrete data exhibiting the ordering defect of the heap-based
`Search`.  With `sqrt` instantiated by the identity all magnitudes
involved are `1`, so the scores are the exact dot products. -/

/-- Chunk scoring `1` against the query `[1, 0]`. -/
def cA1 : Chunk ℚ := ⟨['a'], [], [], [], [], 0, [1, 0]⟩

/-- Chunk scoring `-1` against the query `[1, 0]`. -/
def cB1 : Chunk ℚ := ⟨['b'], [], [], [], [], 0, [-1, 0]⟩

/-- Two-chunk store with scores `1` and `-1` for the query `[1, 0]`. -/
def store1 : VectorStore ℚ := ⟨⟨[], 0, 0, []⟩, [cA1, cB1]⟩

/-- Chunk scoring `1` against the query `[1, 0]`. -/
def cP5 : Chunk ℚ := ⟨['p'], [], [], [], [], 0, [1, 0]⟩

/-- Chunk scoring `0` against the query `[1, 0]`. -/
def cQ5 : Chunk ℚ := ⟨['q'], [], [], [], [], 0, [0, 1]⟩

/-- Chunk scoring `-1` against the query `[1, 0]`. -/
def cR5 : Chunk ℚ := ⟨['r'], [], [], [], [], 0, [-1, 0]⟩

/-- Three-chunk store with scores `1`, `0`, `-1` for the query `[1, 0]`. -/
def store5 : VectorStore ℚ := ⟨⟨[], 0, 0, []⟩, [cP5, cQ5, cR5]⟩

/-! ### Scores carried by the heap

Every item ever held by the priority queue carries the cosine similarity
of its own chunk's embedding against the query; the heap operations only
permute items (and rewrite their `index` bookkeeping), so the property
is invariant. -/

/-- An item's score is the cosine similarity of the query against its
chunk's embedding. -/
def ScoreInv (sqrt : α → α) (query : List α) (it : Item α) : Prop :=
  it.score = cosineSimilarity sqrt query it.chunk.embedding

/-! ### The bulk build pipeline (`BuildVectorStore`)

The embedding provider is modelled as a call-indexed oracle
`e : Nat → List GoStr → Except ε (List (List α))` (the `Nat` is the
global number of embed calls made so far, so successive calls may behave
differently, as a stateful remote provider does).  `time.Sleep` and the
provider calls are recorded in an event trace. -/

/-- Observable events of a build run: an embed call for a batch
(`attempt` is 0-based), a retry backoff sleep, and the inter-batch
pacing sleep (seconds). -/
inductive BEvent where
  | attempt (bstart bend attempt : Nat)
  | backoff (bstart bend seconds : Nat)
  | pace (seconds : Nat)
deriving DecidableEq

/-- The data of the Go error
`failed to embed batch [%d:%d] after %d attempts: %w`. -/
structure BuildError (ε : Type) where
  bstart : Nat
  bend : Nat
  attempts : Nat
  inner : ε
deriving DecidableEq

/-- Failure cases of `BuildVectorStore` (src/unnamed/part_001 lines
171–178, 206–208): missing embedder, empty chunk list, or an exhausted
per-batch retry. -/
inductive BuildFailure (ε : Type) where
  | noEmbedder
  | noChunks
  | embedFailed (err : BuildError ε)
deriving DecidableEq

/-- The per-batch retry loop (src/unnamed/part_001 lines 192–205):
`maxRetries = 5` attempts; after a failed attempt other than the last,
sleep `(attempt+1) * 1s`.  `remaining` is `maxRetries - attempt`; the
function returns the result, the next global call index, and the events
of this batch.  (The `remaining = 0` arm is never reached from
`retryEmbed`, which starts at `remaining = 5`; it mirrors the loop body
not running at all, leaving the zero-valued `embeddings, err`.) -/
def retryGo (e : Nat → List GoStr → Except ε (List (List α))) (texts : List GoStr)
    (bs be : Nat) : Nat → Nat → Nat → Except ε (List (List α)) × Nat × List BEvent
  | 0, c, _ => (.ok [], c, [])
  | 1, c, attempt =>
    match e c texts with
    | .ok v => (.ok v, c + 1, [.attempt bs be attempt])
    | .error err => (.error err, c + 1, [.attempt bs be attempt])
  | remaining + 2, c, attempt =>
    match e c texts with
    | .ok v => (.ok v, c + 1, [.attempt bs be attempt])
    | .error _ =>
      let r := retryGo e texts bs be (remaining + 1) (c + 1) (attempt + 1)
      (r.1, r.2.1, .attempt bs be attempt :: .backoff bs be (attempt + 1) :: r.2.2)

/-- The full retry for one batch: 5 attempts starting at attempt 0. -/
def retryEmbed (e : Nat → List GoStr → Except ε (List (List α))) (texts : List GoStr)
    (bs be c : Nat) : Except ε (List (List α)) × Nat × List BEvent :=
  retryGo e texts bs be 5 c 0

/-- The batch slice `chunks[start:end]`. -/
def batchOf (l : List (Chunk α)) (start e_ : Nat) : List (Chunk α) :=
  (l.drop start).take (e_ - start)

/-- The assignment loop `chunks[start+i].Embedding = embeddings[i]`
(src/unnamed/part_001 lines 210–212), run for `rem` more positions with
`off` positions already done. -/
def assignGo (start : Nat) (vecs : List (List α)) :
    Nat → Nat → List (Chunk α) → List (Chunk α)
  | 0, _, chunks => chunks
  | rem + 1, off, chunks =>
    assignGo start vecs rem (off + 1)
      (chunks.set (start + off)
        { chunks.getD (start + off) dChunk with embedding := vecs.getD off [] })

/-- Result of the batch loop: outcome, final chunk-list state, next call
index, and the event trace. -/
structure BuildOut (α ε : Type) where
  res : Except (BuildError ε) Unit
  chunks : List (Chunk α)
  calls : Nat
  events : List BEvent

/-- The batch loop of `BuildVectorStore` (src/unnamed/part_001 lines
181–217): batches of `bs` from index `start`; retry-embed the batch,
abort on exhausted retries naming the batch range and attempt count,
assign the returned vectors positionally, and sleep 1s between batches
(`start + bs < len(chunks)`).  Fuel-based: the loop advances by
`bs ≥ 1` each iteration, so `chunks.length + 1` steps always suffice;
the fuel-0 arm is unreachable from `buildVectorStore`. -/
def buildGo (e : Nat → List GoStr → Except ε (List (List α))) (bs : Nat) :
    Nat → Nat → Nat → List (Chunk α) → BuildOut α ε
  | 0, _, c, chunks => ⟨.ok (), chunks, c, []⟩
  | fuel + 1, start, c, chunks =>
    if start < chunks.length then
      let e_ := min (start + bs) chunks.length
      let texts := (batchOf chunks start e_).map Chunk.text
      let r := retryEmbed e texts start e_ c
      match r.1 with
      | .error err => ⟨.error ⟨start, e_, 5, err⟩, chunks, r.2.1, r.2.2⟩
      | .ok vecs =>
        let chunks' := assignGo start vecs (e_ - start) 0 chunks
        if start + bs < chunks'.length then
          let rest := buildGo e bs fuel (start + bs) r.2.1 chunks'
          ⟨rest.res, rest.chunks, rest.calls, r.2.2 ++ .pace 1 :: rest.events⟩
        else ⟨.ok (), chunks', r.2.1, r.2.2⟩
    else ⟨.ok (), chunks, c, []⟩

/-- The `BuildVectorStore` (src/unnamed/part_001 lines 170–221): validation
(embedder present, chunks non-empty), batch-size coercion (`≤ 0 → 16`),
the batch loop, and on success a store wrapping the supplied metadata
and the (mutated in place) chunk list.  Returns the result, the final
state of the caller-supplied chunk list, and the event trace. -/
def buildVectorStore (e? : Option (Nat → List GoStr → Except ε (List (List α))))
    (chunks : List (Chunk α)) (batchSize : Int) (meta : Metadata) :
    Except (BuildFailure ε) (VectorStore α) × List (Chunk α) × List BEvent :=
  match e? with
  | none => (.error .noEmbedder, chunks, [])
  | some e =>
    if chunks.length = 0 then (.error .noChunks, chunks, [])
    else
      let bs : Nat := if batchSize ≤ 0 then 16 else batchSize.toNat
      let out := buildGo e bs (chunks.length + 1) 0 0 chunks
      match out.res with
      | .error err => (.error (.embedFailed err), out.chunks, out.events)
      | .ok _ => (.ok ⟨meta, out.chunks⟩, out.chunks, out.events)

/-- Does an event belong to the retry activity of the batch
`[s:e5)`? -/
def isForBatch (s e5 : Nat) : BEvent → Bool
  | .attempt bs be _ => bs = s && be = e5
  | .backoff bs be _ => bs = s && be = e5
  | .pace _ => false

/-- The sub-trace of events belonging to batch `[s:e5)`. -/
def eventsFor (s e5 : Nat) (l : List BEvent) : List BEvent :=
  l.filter (isForBatch s e5)

/-- The expected trace of a batch whose every attempt fails, starting at
attempt number `attempt` with `remaining` attempts left. -/
def attemptSeq (s e5 : Nat) : Nat → Nat → List BEvent
  | 0, _ => []
  | 1, attempt => [.attempt s e5 attempt]
  | remaining + 2, attempt =>
    .attempt s e5 attempt :: .backoff s e5 (attempt + 1) ::
      attemptSeq s e5 (remaining + 1) (attempt + 1)

/-- Seconds slept by a backoff event (0 for other events). -/
def backoffSeconds : BEvent → Nat
  | .backoff _ _ s => s
  | _ => 0

/-- Is the event an embed attempt? -/
def isAttemptEv : BEvent → Bool
  | .attempt _ _ _ => true
  | _ => false

/-- An embedding provider that fails on every call. -/
def failEmb : Nat → List GoStr → Except GoStr (List (List ℚ)) := fun _ _ => .error ['x']

/-- An unembedded chunk for the retry-exhaustion witness. -/
def wChunk3 : Chunk ℚ := ⟨['c'], [], [], [], ['t'], 0, []⟩

/-- Zero-valued metadata for witnesses. -/
def metaW : Metadata := ⟨[], 0, 0, []⟩

/-! ### In-place embedding assignment (claim C8) -/

/-- A chunk with its embedding blanked: the part of a chunk the build
pipeline never modifies. -/
def eraseEmb (c : Chunk α) : Chunk α := { c with embedding := [] }

/-- The start of the batch containing index `i`, for batches of size `bs`
beginning at `start`. -/
def bStartFrom (start bs i : Nat) : Nat := start + (i - start) / bs * bs

/-- The coerced batch size (`batchSize <= 0` falls back to 16). -/
def effBatchSize (batchSize : Int) : Nat :=
  if batchSize ≤ 0 then 16 else batchSize.toNat

/-- A provider that embeds every text as the unit vector `[1]`. -/
def okEmb : Nat → List GoStr → Except GoStr (List (List ℚ)) :=
  fun _ texts => .ok (texts.map fun _ => [1])

/-- A provider whose first call succeeds and all later calls fail. -/
def failAfterFirst : Nat → List GoStr → Except GoStr (List (List ℚ)) :=
  fun c _ => if c = 0 then .ok [[1]] else .error ['x']

/-- First chunk for the build witnesses. -/
def k81 : Chunk ℚ := ⟨['1'], [], [], [], ['a'], 0, []⟩

/-- Second chunk for the build witnesses. -/
def k82 : Chunk ℚ := ⟨['2'], [], [], [], ['b'], 0, []⟩

/-- The store a successful two-batch build of `[k81, k82]` returns. -/
def sW : VectorStore ℚ :=
  ⟨metaW, [{ k81 with embedding := [1] }, { k82 with embedding := [1] }]⟩

/-! ### Persistence (`Save` / `LoadVectorStore`, claim C4)

`Save` runs `os.MkdirAll`, `json.MarshalIndent` and `os.WriteFile`;
`LoadVectorStore` runs `os.ReadFile` and `json.Unmarshal`.  The
`encoding/json` codec and the file transport are external library code;
they are modelled at the JSON-value level: `Save` is the JSON document
written for the store (field names from the struct tags of
src/unnamed/part_002; indentation is presentation only), the transport
is the identity on that document, and `LoadVectorStore` decodes it the
way `json.Unmarshal` populates the tagged struct fields (a missing field
leaves the zero value, a `null` is accepted for a slice, a mistyped
field is an error).  Numbers idealised as `ℚ`, `time.Time` by its
serialized string. -/

/-- A JSON value. -/
inductive Json where
  | null
  | num (q : ℚ)
  | str (s : GoStr)
  | arr (xs : List Json)
  | obj (fields : List (GoStr × Json))

/-- Field lookup in a JSON object, first match wins. -/
def jLookup (name : GoStr) : List (GoStr × Json) → Option Json
  | [] => none
  | (k, v) :: rest => if k = name then some v else jLookup name rest

/-- The `json.Unmarshal` into a string field. -/
def decodeStr : Json → Except GoStr GoStr
  | .str s => .ok s
  | _ => .error ('s' :: [])

/-- The `json.Unmarshal` into an `int` field (any integral JSON number). -/
def decodeInt : Json → Except GoStr Int
  | .num q => if q.den = 1 then .ok q.num else .error ('i' :: [])
  | _ => .error ('i' :: [])

/-- The `json.Unmarshal` into a `float32` field. -/
def decodeNum : Json → Except GoStr ℚ
  | .num q => .ok q
  | _ => .error ('f' :: [])

/-- Element-wise decoding of a JSON array's entries. -/
def decodeAll {β : Type} (f : Json → Except GoStr β) : List Json → Except GoStr (List β)
  | [] => .ok []
  | x :: xs =>
    match f x with
    | .error msg => .error msg
    | .ok v =>
      match decodeAll f xs with
      | .error msg => .error msg
      | .ok vs => .ok (v :: vs)

/-- The `json.Unmarshal` into a slice field (`null` decodes to the empty
slice, as in Go). -/
def decodeList {β : Type} (f : Json → Except GoStr β) : Json → Except GoStr (List β)
  | .null => .ok []
  | .arr xs => decodeAll f xs
  | _ => .error ('l' :: [])

/-- Decode one object field: a missing field keeps the zero value `d`
(as `json.Unmarshal` does), a present field must decode. -/
def decodeField {β : Type} (fields : List (GoStr × Json)) (name : GoStr)
    (f : Json → Except GoStr β) (d : β) : Except GoStr β :=
  match jLookup name fields with
  | none => .ok d
  | some v => f v

/-- The JSON document `json.MarshalIndent` produces for a `Chunk`
(struct tags `id, documentId, source, uri, text, index, embedding`). -/
def marshalChunk (c : Chunk ℚ) : Json :=
  .obj [("id".toList, .str c.id),
        ("documentId".toList, .str c.documentId),
        ("source".toList, .str c.source),
        ("uri".toList, .str c.uri),
        ("text".toList, .str c.text),
        ("index".toList, .num (c.index : ℚ)),
        ("embedding".toList, .arr (c.embedding.map .num))]

/-- The `json.Unmarshal` of a `Chunk`. -/
def unmarshalChunk : Json → Except GoStr (Chunk ℚ)
  | .obj fields =>
    match decodeField fields "id".toList decodeStr [] with
    | .error msg => .error msg
    | .ok idv =>
    match decodeField fields "documentId".toList decodeStr [] with
    | .error msg => .error msg
    | .ok docv =>
    match decodeField fields "source".toList decodeStr [] with
    | .error msg => .error msg
    | .ok srcv =>
    match decodeField fields "uri".toList decodeStr [] with
    | .error msg => .error msg
    | .ok uriv =>
    match decodeField fields "text".toList decodeStr [] with
    | .error msg => .error msg
    | .ok textv =>
    match decodeField fields "index".toList decodeInt 0 with
    | .error msg => .error msg
    | .ok idxv =>
    match decodeField fields "embedding".toList (decodeList decodeNum) [] with
    | .error msg => .error msg
    | .ok embv => .ok ⟨idv, docv, srcv, uriv, textv, idxv, embv⟩
  | _ => .error ('c' :: [])

/-- The JSON document for `Metadata`
(struct tags `generatedAt, sourceCount, chunkCount, notes`). -/
def marshalMeta (m : Metadata) : Json :=
  .obj [("generatedAt".toList, .str m.generatedAt),
        ("sourceCount".toList, .num (m.sourceCount : ℚ)),
        ("chunkCount".toList, .num (m.chunkCount : ℚ)),
        ("notes".toList, .arr (m.notes.map .str))]

/-- The `json.Unmarshal` of a `Metadata`. -/
def unmarshalMeta : Json → Except GoStr Metadata
  | .obj fields =>
    match decodeField fields "generatedAt".toList decodeStr [] with
    | .error msg => .error msg
    | .ok genv =>
    match decodeField fields "sourceCount".toList decodeInt 0 with
    | .error msg => .error msg
    | .ok srcv =>
    match decodeField fields "chunkCount".toList decodeInt 0 with
    | .error msg => .error msg
    | .ok cntv =>
    match decodeField fields "notes".toList (decodeList decodeStr) [] with
    | .error msg => .error msg
    | .ok notesv => .ok ⟨genv, srcv, cntv, notesv⟩
  | _ => .error ('m' :: [])

/-- The `Save` (src/unnamed/part_001 lines 224–233): the JSON document
written for the store (struct tags `metadata, chunks`). -/
def VectorStore.Save (vs : VectorStore ℚ) : Json :=
  .obj [("metadata".toList, marshalMeta vs.metadata),
        ("chunks".toList, .arr (vs.chunks.map marshalChunk))]

/-- The `LoadVectorStore` (src/unnamed/part_001 lines 236–246): decode the
persisted document back into a store. -/
def LoadVectorStore : Json → Except GoStr (VectorStore ℚ)
  | .obj fields =>
    match decodeField fields "metadata".toList unmarshalMeta ⟨[], 0, 0, []⟩ with
    | .error msg => .error msg
    | .ok metav =>
    match decodeField fields "chunks".toList (decodeList unmarshalChunk) [] with
    | .error msg => .error msg
    | .ok chunksv => .ok ⟨metav, chunksv⟩
  | _ => .error ('v' :: [])

/-! ### Strings, UTF-8 and the retrieval service -/

/-- Go `unicode.IsSpace`: the `White_Space` code points. -/
def isSpace (c : Char) : Bool :=
  let n := c.toNat
  decide ((9 ≤ n ∧ n ≤ 13) ∨ n = 32 ∨ n = 133 ∨ n = 160 ∨ n = 0x1680 ∨
    (0x2000 ≤ n ∧ n ≤ 0x200A) ∨ n = 0x2028 ∨ n = 0x2029 ∨ n = 0x202F ∨
    n = 0x205F ∨ n = 0x3000)

/-- Go `strings.TrimSpace`: drop leading and trailing white space. -/
def trimSpace (s : GoStr) : GoStr :=
  ((s.dropWhile isSpace).reverse.dropWhile isSpace).reverse

/-- The UTF-8 encoding of one rune. -/
def utf8Bytes (c : Char) : List Nat :=
  let n := c.toNat
  if n < 128 then [n]
  else if n < 2048 then [192 + n / 64, 128 + n % 64]
  else if n < 65536 then [224 + n / 4096, 128 + n / 64 % 64, 128 + n % 64]
  else [240 + n / 262144, 128 + n / 4096 % 64, 128 + n / 64 % 64, 128 + n % 64]

/-- The byte sequence of a Go string (Go strings are UTF-8 bytes; `len`
and slicing in the source act on these bytes). -/
def strBytes (s : GoStr) : List Nat := (s.map utf8Bytes).join

/-- The snippet computation of `Answer` (src/pkg/rag/service.go lines
97–100): trim the chunk text, then if its byte length exceeds 400 keep
the first 400 bytes and append `"..."`. -/
def snippetOf (text : GoStr) : List Nat :=
  let t := trimSpace text
  let bs := strBytes t
  if 400 < bs.length then bs.take 400 ++ strBytes ('.' :: '.' :: '.' :: [])
  else bs

/-- The snippet claim C6 describes, read literally: lengths measured in
characters (code points), truncation at 400 characters. -/
def claimSnippetChars (text : GoStr) : GoStr :=
  let t := trimSpace text
  if 400 < t.length then t.take 400 ++ ('.' :: '.' :: '.' :: []) else t

/-- The `SourceAttribution` from the data model; the snippet is the byte
string the Go code builds. -/
structure SourceAttribution (α : Type) where
  title : GoStr
  uri : GoStr
  snippet : List Nat
  score : α
deriving DecidableEq

/-- The `Answer` from the data model. -/
structure AnswerOut (α : Type) where
  answer : GoStr
  sources : List (SourceAttribution α)
deriving DecidableEq

/-- Decimal digits of a natural number (for `fmt.Sprintf` indices and
chunk ids). -/
def natToStr (n : Nat) : GoStr := Nat.toDigits 10 n

/-- The `buildPrompt` (src/pkg/rag/service.go lines 112–131): the context
sections, the fixed instruction block, and the question. -/
def buildPrompt (question : GoStr) (hits : List (SearchResult α)) : GoStr :=
  "Context sections (most relevant to least):\n".toList ++
  (hits.enum.map (fun p =>
    "[".toList ++ natToStr (p.1 + 1) ++ "] Source: ".toList ++ p.2.chunk.source ++
    " (".toList ++ p.2.chunk.uri ++ ")\n".toList ++ p.2.chunk.text ++
    "\n\n".toList)).join ++
  "Instructions:\n".toList ++
  "1. Use only the provided context sections.\n".toList ++
  "2. If the answer is not present, say you do not have that information.\n".toList ++
  "3. When relevant, cite the source title in parentheses.\n".toList ++
  "4. Highlight Amazon-specific constraints (rate limits, launch phases, pilots) explicitly.\n".toList ++
  "\nQuestion:\n".toList ++ question

/-- The `Service.Answer` (src/pkg/rag/service.go lines 198–260): validation,
option defaulting, query embedding, heap search, completion, and the
source attributions.  The embedding and chat providers are oracles
(`Answer` calls each exactly once); `temperature` is idealised as `ℚ`. -/
def answer (sqrt : α → α) (embed : List GoStr → Except GoStr (List (List α)))
    (complete : GoStr → GoStr → ℚ → Except GoStr GoStr)
    (store? : Option (VectorStore α)) (systemPrompt : GoStr) (defaultTopK : Int)
    (question : GoStr) (topK : Int) (temperature : ℚ) :
    Except GoStr (AnswerOut α) :=
  match store? with
  | none => .error "rag service is not initialized".toList
  | some _ =>
    let trimmed := trimSpace question
    if trimmed = [] then .error "question is required".toList
    else
      let topK := if topK ≤ 0 then defaultTopK else topK
      let temperature := if temperature = 0 then 0.2 else temperature
      match embed [trimmed] with
      | .error msg => .error msg
      | .ok embs =>
        if embs.length = 0 then .error "empty query embedding".toList
        else
          let hits := searchHeap sqrt store? (embs.getD 0 []) topK
          if hits.length = 0 then
            .error "no context available; run ingestion first".toList
          else
            match complete systemPrompt (buildPrompt trimmed hits) temperature with
            | .error msg => .error msg
            | .ok ans =>
              .ok ⟨trimSpace ans,
                hits.map fun m =>
                  ⟨m.chunk.source, m.chunk.uri, snippetOf m.chunk.text, m.score⟩⟩

/-! ### Chunker (claim C10) and `AddSource` (claim C7) -/

/-- The `Document` from the source data model (src/unnamed/part_002). -/
structure Document where
  id : GoStr
  title : GoStr
  uri : GoStr
  source : GoStr
  content : GoStr
deriving DecidableEq

/-- The `ChunkOptions` of the chunker. -/
structure ChunkOptions where
  size : Int
  overlap : Int
deriving DecidableEq

/-- Modelled from the spec: the chunker's option normalisation (§4.1) —
`size > 0` default 1200, `overlap ≥ 0` default 0, overlap clamped to
`size/4` when `overlap ≥ size`, `step = size - overlap` with a
defensive floor of `size`.  (The chunker `ChunkDocuments` is called by
the service and the CLI but its source file is not among the provided
sources.)  Returns `(size, step)`. -/
def chunkOptsNorm (opts : ChunkOptions) : Nat × Nat :=
  let size : Int := if opts.size ≤ 0 then 1200 else opts.size
  let overlap : Int := if opts.overlap < 0 then 0 else opts.overlap
  let overlap : Int := if size ≤ overlap then size / 4 else overlap
  let step : Int := if size - overlap ≤ 0 then size else size - overlap
  (size.toNat, step.toNat)

/-- Modelled from the spec: the chunker's window loop (§4.1) — windows
of `size` code points starting at 0 and advancing by `step`, until a
window's end reaches the content length; the final window is clipped to
the content end and the loop terminates there.  Fuel-based (the
position strictly increases, so `content.length + 1` steps suffice). -/
def windowsGo (size step : Nat) : Nat → Nat → GoStr → List GoStr
  | 0, _, _ => []
  | fuel + 1, pos, content =>
    if content.length ≤ pos + size then [content.drop pos]
    else (content.drop pos).take size :: windowsGo size step fuel (pos + step) content

/-- Modelled from the spec: chunking one document (§4.1) — empty content
yields zero chunks; chunk ids are `<documentId>-chunk-<index>` with
`index` the 0-based window order; `source`/`uri` copied from the
document; no embedding yet. -/
def chunkOne (opts : ChunkOptions) (doc : Document) : List (Chunk α) :=
  if doc.content = [] then []
  else
    let sz := chunkOptsNorm opts
    let ws := windowsGo sz.1 sz.2 (doc.content.length + 1) 0 doc.content
    ws.enum.map fun p =>
      ⟨doc.id ++ "-chunk-".toList ++ natToStr p.1, doc.id, doc.source, doc.uri,
        p.2, (p.1 : Int), []⟩

/-- Modelled from the spec: `ChunkDocuments` (§4.1) — chunks appended in
document order, then window order. -/
def chunkDocuments (docs : List Document) (opts : ChunkOptions) : List (Chunk α) :=
  (docs.map (chunkOne opts)).join

/-- Is the character kept verbatim by `Slugify` (lower-case letter or
digit)? -/
def isSlugChar (c : Char) : Bool :=
  decide (('a' ≤ c ∧ c ≤ 'z') ∨ ('0' ≤ c ∧ c ≤ '9'))

/-- The regex substitution of `Slugify` (src/unnamed/part_004 lines
195–206): every maximal run of characters outside `[a-z0-9]` becomes a
single `'-'` (substitute per character, then collapse runs of `'-'`). -/
def slugSub (s : GoStr) : GoStr :=
  (s.map fun c => if isSlugChar c then c else '-').foldr
    (fun c acc => if c = '-' ∧ acc.headD 'x' = '-' then acc else c :: acc) []

/-- The `Slugify` (src/unnamed/part_004 lines 195–206): lower-case, replace
non-alphanumeric runs with `'-'`, trim `'-'`, defaulting to `"doc"`. -/
def slugify (s : GoStr) : GoStr :=
  let slug := slugSub (s.map Char.toLower)
  let slug := ((slug.dropWhile (· = '-')).reverse.dropWhile (· = '-')).reverse
  if slug = [] then "doc".toList else slug

/-- The per-chunk embedding loop of `AddSource` (src/pkg/rag/service.go
lines 321–332): one provider request per chunk, abort on the first
error, assign the first returned vector when any is returned.  (The
fixed 500 ms pacing sleep has no observable effect here.) -/
def embedLoop (e : Nat → List GoStr → Except GoStr (List (List α))) (c : Nat) :
    List (Chunk α) → Except GoStr (List (Chunk α))
  | [] => .ok []
  | ch :: rest =>
    match e c [ch.text] with
    | .error msg => .error msg
    | .ok embs =>
      let ch' := if 0 < embs.length then { ch with embedding := embs.getD 0 [] } else ch
      match embedLoop e (c + 1) rest with
      | .error msg => .error msg
      | .ok rest' => .ok (ch' :: rest')

/-- The `Service.AddSource` (src/pkg/rag/service.go lines 293–341):
validation and defaulting, document construction (`Slugify` id,
`user-added` source, trimmed content), chunking with the fixed
`{Size: 1400, Overlap: 200}` profile, per-chunk embedding, then append
to the store and bump the metadata (`now` stands for
`time.Now().UTC()`).  Returns the result and the new store state. -/
def addSource (e : Nat → List GoStr → Except GoStr (List (List α)))
    (store? : Option (VectorStore α)) (title content uri now : GoStr) :
    Except GoStr Unit × Option (VectorStore α) :=
  match store? with
  | none => (.error "rag service is not initialized".toList, store?)
  | some store =>
    if content = [] then (.error "content cannot be empty".toList, store?)
    else
      let title := if title = [] then "User Added Source".toList else title
      let uri := if uri = [] then "user-input://".toList ++ title else uri
      let doc : Document := ⟨slugify title, title, uri, "user-added".toList,
        trimSpace content⟩
      let chunks : List (Chunk α) := chunkDocuments [doc] ⟨1400, 200⟩
      match embedLoop e 0 chunks with
      | .error msg => (.error ("failed to embed chunk: ".toList ++ msg), store?)
      | .ok chunks' =>
        (.ok (), some ⟨⟨now, store.metadata.sourceCount + 1,
          store.metadata.chunkCount + (chunks' : List (Chunk α)).length,
          store.metadata.notes⟩, store.chunks ++ chunks'⟩)

/-- A populated store for the `AddSource` witness. -/
def sw7 : VectorStore ℚ := ⟨⟨['m'], 2, 3, [['n']]⟩, [⟨['k'], [], [], [], ['w'], 0, [1]⟩]⟩

/-- A two-character document for the chunker witness. -/
def wDoc : Document := ⟨['d'], [], [], [], ['h', 'i']⟩

/-- An empty document. -/
def emptyDoc : Document := ⟨['d'], [], [], [], []⟩

/-- The file-content effect of the `os.WriteFile(path, data, 0o644)`
call that `Save` makes (src/unnamed/part_001 line 232), under
`os.WriteFile`'s documented semantics: the target file is
created/truncated and `data` is written sequentially; `interrupted =
some k` models the call stopping after `k` bytes (write error such as a
full disk, or a crash), which leaves exactly the bytes written so far —
the previous content was destroyed by the truncation.  `none` is the
completed call.  `Save` uses no temporary file and no rename. -/
def saveWriteFile (data : List Nat) (interrupted : Option Nat) : List Nat :=
  match interrupted with
  | none => data
  | some k => data.take k

/-- The store for the C6 witness: one chunk with a short ASCII text
(its embedding left empty, so the search scores it 0 by the
length-mismatch rule — no field arithmetic is involved). -/
def store6w : VectorStore ℚ := ⟨metaW, [⟨['i'], [], ['s'], ['u'], ['h', 'i'], 0, []⟩]⟩

/-- Embed oracle for the C6 witness: one unit vector. -/
def e6w : List GoStr → Except GoStr (List (List ℚ)) := fun _ => .ok [[1]]

/-- Chat oracle for the C6 witness. -/
def c6w : GoStr → GoStr → ℚ → Except GoStr GoStr := fun _ _ _ => .ok ['o', 'k']

/-- String of 201 copies of `é` (two UTF-8 bytes each: 402 bytes, 201 code
points). -/
def t6 : GoStr := List.replicate 201 'é'

/-- The C6 counterexample store: one chunk whose text is `t6`. -/
def store6x : VectorStore ℚ := ⟨metaW, [⟨['i'], [], ['s'], ['u'], t6, 0, []⟩]⟩

theorem dotMags_eq_spec :
    ∀ (n : ℕ) (a b : List α), a.length ≤ n → a.length = b.length →
      dotMags a b = (dotProd a b, sumSq a, sumSq b) := by
  intro n
  induction n with
  | zero =>
    intro a b ha hab
    have : a = [] := List.length_eq_zero.mp (Nat.le_zero.mp ha)
    subst this
    have : b = [] := List.length_eq_zero.mp hab.symm
    subst this
    simp [dotMags, dotProd, sumSq]
  | succ n ih =>
    intro a b ha hab
    match a, b with
    | [], [] => simp [dotMags, dotProd, sumSq]
    | a0 :: a1 :: a2 :: a3 :: ar, b0 :: b1 :: b2 :: b3 :: br =>
      have har : ar.length ≤ n := by
        simp only [List.length_cons] at ha; omega
      have harb : ar.length = br.length := by
        simp only [List.length_cons] at hab; omega
      have := ih ar br (by omega) harb
      simp only [dotMags, this, dotProd, sumSq]
      refine Prod.ext ?_ (Prod.ext ?_ ?_) <;> simp <;> ring
    | [a0], [b0] =>
      simp [dotMags, dotProd, sumSq]
    | [a0, a1], [b0, b1] =>
      simp [dotMags, dotProd, sumSq]
    | [a0, a1, a2], [b0, b1, b2] =>
      simp [dotMags, dotProd, sumSq]
    | [], _ :: _ => simp at hab
    | _ :: _, [] => simp at hab

/-- Claim C1: the heap-based `Search` is claimed to return its results
sorted in descending score order.  It does not: the drain loop already
fills the result array in descending order (`heap.Pop` yields the
minimum first, written at the last index), and the subsequent explicit
reversal flips it to ascending order.  On the two-chunk store with
scores `1` and `-1` and `topK = 2`, the returned list is
`[score -1, score 1]` — ascending — and not the descending list the
claim (and the code's own comment "Reverse to get descending order
(highest score first)") mandates. -/
theorem C1_heap_search_returns_ascending :
    searchHeap (fun x => x) (some store1) [1, 0] 2 =
      [⟨cB1, -1⟩, ⟨cA1, 1⟩] ∧
    searchHeap (fun x => x) (some store1) [1, 0] 2 ≠
      [⟨cA1, 1⟩, ⟨cB1, -1⟩] := by
  constructor <;>
    norm_num [searchHeap, searchLoop, heapPush, heapPop, heapUp, heapUpGo,
      heapDown, heapDownGo, heapInit, heapInitGo, pqSwap, pqLess, popAllGo,
      cosineSimilarity, dotMags, dChunk, dItem, store1, cA1, cB1,
      List.getD, List.set, List.cons_ne_nil]

/-- Claim C5: the sort-and-slice `Search` and the heap-based `Search` are
claimed to return the same result list.  They do not: on a three-chunk
store with pairwise distinct scores `1`, `0`, `-1` and `topK = 2` both
select the two best chunks, but the sort-and-slice version returns them
sorted descending while the heap-based version returns them ascending
(its final reversal flips an already-descending array), so the two
results are reverses of each other. -/
theorem C5_sort_and_heap_search_disagree :
    searchSort (fun x => x) (some store5) [1, 0] 2 =
      [⟨cP5, 1⟩, ⟨cQ5, 0⟩] ∧
    searchHeap (fun x => x) (some store5) [1, 0] 2 =
      [⟨cQ5, 0⟩, ⟨cP5, 1⟩] ∧
    searchSort (fun x => x) (some store5) [1, 0] 2 ≠
      searchHeap (fun x => x) (some store5) [1, 0] 2 := by
  refine ⟨?_, ?_, ?_⟩ <;>
    norm_num [searchHeap, searchSort, searchLoop, sortByScore, insertDesc,
      heapPush, heapPop, heapUp, heapUpGo, heapDown, heapDownGo, heapInit,
      heapInitGo, pqSwap, pqLess, popAllGo, cosineSimilarity, dotMags,
      dChunk, dItem, store5, cP5, cQ5, cR5, List.getD, List.set,
      List.cons_ne_nil, show Int.toNat 2 = 2 from rfl]

theorem scoreInv_dItem (sqrt : α → α) (query : List α) :
    ScoreInv sqrt query (dItem : Item α) := by
  simp [ScoreInv, dItem, dChunk, cosineSimilarity]

theorem scoreInv_index (sqrt : α → α) (query : List α) (it : Item α) (k : Int)
    (h : ScoreInv sqrt query it) : ScoreInv sqrt query { it with index := k } := h

theorem mem_getD {β : Type} (l : List β) (i : Nat) (d : β) :
    l.getD i d ∈ l ∨ l.getD i d = d := by
  induction l generalizing i with
  | nil => right; cases i <;> rfl
  | cons x xs ih =>
    cases i with
    | zero => left; exact List.mem_cons_self x xs
    | succ i =>
      rcases ih i with h | h
      · left; exact List.mem_cons_of_mem x (by simpa [List.getD] using h)
      · right; simpa [List.getD] using h

theorem scoreInv_getD (sqrt : α → α) (query : List α) {l : List (Item α)}
    (h : ∀ x ∈ l, ScoreInv sqrt query x) (i : Nat) :
    ScoreInv sqrt query (l.getD i dItem) := by
  rcases mem_getD l i dItem with hm | hm
  · exact h _ hm
  · rw [hm]; exact scoreInv_dItem sqrt query

theorem scoreInv_set (sqrt : α → α) (query : List α) {l : List (Item α)}
    (h : ∀ x ∈ l, ScoreInv sqrt query x) {y : Item α} (hy : ScoreInv sqrt query y)
    (i : Nat) : ∀ x ∈ l.set i y, ScoreInv sqrt query x := by
  intro x hx
  rcases List.mem_or_eq_of_mem_set hx with hx' | hx'
  · exact h _ hx'
  · rw [hx']; exact hy

theorem scoreInv_pqSwap (sqrt : α → α) (query : List α) {l : List (Item α)}
    (h : ∀ x ∈ l, ScoreInv sqrt query x) (i j : Nat) :
    ∀ x ∈ pqSwap l i j, ScoreInv sqrt query x := by
  unfold pqSwap
  exact scoreInv_set sqrt query
    (scoreInv_set sqrt query h
      (scoreInv_index sqrt query _ _ (scoreInv_getD sqrt query h j)) i)
    (scoreInv_index sqrt query _ _ (scoreInv_getD sqrt query h i)) j

theorem scoreInv_heapUpGo (sqrt : α → α) (query : List α) (fuel : Nat) :
    ∀ (l : List (Item α)) (j : Nat), (∀ x ∈ l, ScoreInv sqrt query x) →
      ∀ x ∈ heapUpGo fuel l j, ScoreInv sqrt query x := by
  induction fuel with
  | zero => intro l j h; simpa [heapUpGo] using h
  | succ fuel ih =>
    intro l j h
    simp only [heapUpGo]
    split
    · exact h
    · exact ih _ _ (scoreInv_pqSwap sqrt query h _ _)

theorem scoreInv_heapDownGo (sqrt : α → α) (query : List α) (fuel : Nat) :
    ∀ (l : List (Item α)) (i n : Nat), (∀ x ∈ l, ScoreInv sqrt query x) →
      ∀ x ∈ heapDownGo fuel l i n, ScoreInv sqrt query x := by
  induction fuel with
  | zero => intro l i n h; simpa [heapDownGo] using h
  | succ fuel ih =>
    intro l i n h
    simp only [heapDownGo]
    split
    · exact h
    · split <;> split <;>
        first
          | exact h
          | exact ih _ _ _ (scoreInv_pqSwap sqrt query h _ _)

theorem scoreInv_heapPush (sqrt : α → α) (query : List α) {l : List (Item α)}
    (h : ∀ x ∈ l, ScoreInv sqrt query x) {y : Item α} (hy : ScoreInv sqrt query y) :
    ∀ x ∈ heapPush l y, ScoreInv sqrt query x := by
  unfold heapPush heapUp
  refine scoreInv_heapUpGo sqrt query _ _ _ ?_
  intro x hx
  rcases List.mem_append.mp hx with hx' | hx'
  · exact h _ hx'
  · rw [List.mem_singleton.mp hx']; exact scoreInv_index sqrt query _ _ hy

theorem scoreInv_heapPop (sqrt : α → α) (query : List α) {l : List (Item α)}
    (h : ∀ x ∈ l, ScoreInv sqrt query x) :
    ScoreInv sqrt query (heapPop l).1 ∧
      ∀ x ∈ (heapPop l).2, ScoreInv sqrt query x := by
  unfold heapPop heapDown
  have h2 : ∀ x ∈ heapDownGo (l.length - 1) (pqSwap l 0 (l.length - 1)) 0 (l.length - 1),
      ScoreInv sqrt query x :=
    scoreInv_heapDownGo sqrt query _ _ _ _ (scoreInv_pqSwap sqrt query h _ _)
  constructor
  · exact scoreInv_index sqrt query _ _ (scoreInv_getD sqrt query h2 _)
  · intro x hx
    exact h2 _ (List.mem_of_mem_take hx)

theorem scoreInv_searchLoop (sqrt : α → α) (query : List α) (k : Int) :
    ∀ (cs : List (Chunk α)) (pq : List (Item α)),
      (∀ x ∈ pq, ScoreInv sqrt query x) →
      ∀ x ∈ searchLoop sqrt query k cs pq, ScoreInv sqrt query x := by
  intro cs
  induction cs with
  | nil => intro pq h; simpa [searchLoop] using h
  | cons c rest ih =>
    intro pq h
    simp only [searchLoop]
    split
    · exact ih _ (scoreInv_heapPush sqrt query h rfl)
    · split
      · exact ih _
          (scoreInv_heapPush sqrt query (scoreInv_heapPop sqrt query h).2 rfl)
      · exact ih _ h

theorem scoreInv_popAllGo (sqrt : α → α) (query : List α) (fuel : Nat) :
    ∀ (l : List (Item α)), (∀ x ∈ l, ScoreInv sqrt query x) →
      ∀ x ∈ popAllGo fuel l, ScoreInv sqrt query x := by
  induction fuel with
  | zero => intro l _ x hx; simp [popAllGo] at hx
  | succ fuel ih =>
    intro l h x hx
    simp only [popAllGo, List.mem_cons] at hx
    rcases hx with hx | hx
    · rw [hx]; exact (scoreInv_heapPop sqrt query h).1
    · exact ih _ (scoreInv_heapPop sqrt query h).2 _ hx

/-- Every result of the heap-based `Search` is scored with the cosine
similarity of the query against its own chunk's embedding. -/
theorem searchHeap_score_eq (sqrt : α → α) (vs : Option (VectorStore α))
    (query : List α) (topK : Int) :
    ∀ r ∈ searchHeap sqrt vs query topK,
      r.score = cosineSimilarity sqrt query r.chunk.embedding := by
  intro r hr
  match vs with
  | none => simp [searchHeap] at hr
  | some vs =>
    simp only [searchHeap] at hr
    split at hr
    · simp at hr
    · split at hr
      · simp at hr
      · simp only [List.reverse_reverse, List.mem_reverse, List.mem_map] at hr
        obtain ⟨it, hit, rfl⟩ := hr
        have hinv : ∀ x ∈ searchLoop sqrt query
            (if topK ≤ 0 then 4 else topK) vs.chunks (heapInit []),
            ScoreInv sqrt query x :=
          scoreInv_searchLoop sqrt query _ _ _ (by simp [heapInit, heapInitGo])
        exact scoreInv_popAllGo sqrt query _ _ hinv it hit

/-- Claim C2: for every pair of vectors, if either is empty or their
lengths differ, `cosineSimilarity` is exactly `0` (being a total
function, no error is raised); otherwise the result is
`dot(a,b) / (|a| * |b|)` — with the magnitudes written through the
squared-magnitude accumulators, `|a| = sqrt (sumSq a)` — and it is `0`
whenever either squared magnitude is `0`.  Consequently every result the
(heap-based) `Search` returns for a chunk whose stored embedding length
differs from the query's length carries the score exactly `0`. -/
theorem C2_cosineSimilarity_spec (sqrt : α → α) (a b : List α)
    (vs : Option (VectorStore α)) (query : List α) (topK : Int) :
    ((a = [] ∨ b = [] ∨ a.length ≠ b.length) → cosineSimilarity sqrt a b = 0) ∧
    (a ≠ [] → a.length = b.length →
      (sumSq a = 0 ∨ sumSq b = 0 → cosineSimilarity sqrt a b = 0) ∧
      (sumSq a ≠ 0 → sumSq b ≠ 0 →
        cosineSimilarity sqrt a b =
          dotProd a b / (sqrt (sumSq a) * sqrt (sumSq b)))) ∧
    (∀ r ∈ searchHeap sqrt vs query topK,
      r.chunk.embedding.length ≠ query.length → r.score = 0) := by
  refine ⟨?_, ?_, ?_⟩
  · intro h
    have hc : a.length = 0 ∨ b.length = 0 ∨ a.length ≠ b.length := by
      rcases h with h | h | h
      · left; simp [h]
      · right; left; simp [h]
      · right; right; exact h
    unfold cosineSimilarity
    rw [if_pos hc]
  · intro ha hlen
    have hmags := dotMags_eq_spec a.length a b le_rfl hlen
    have hc : ¬ (a.length = 0 ∨ b.length = 0 ∨ a.length ≠ b.length) := by
      push_neg
      refine ⟨?_, ?_, hlen⟩
      · simpa using ha
      · rw [← hlen]; simpa using ha
    constructor
    · intro hz
      unfold cosineSimilarity
      rw [if_neg hc]
      simp only [hmags]
      rw [if_pos hz]
    · intro hza hzb
      unfold cosineSimilarity
      rw [if_neg hc]
      simp only [hmags]
      rw [if_neg (by tauto)]
  · intro r hr hlen
    rw [searchHeap_score_eq sqrt vs query topK r hr]
    unfold cosineSimilarity
    rw [if_pos (Or.inr (Or.inr (Ne.symm hlen)))]

/-- Witness for C2 at concrete inputs: the empty/mismatch guard yields
`0` on `([], [1])`, and on `([2], [3])` the similarity is
`6 / (4 * 9)` (dot and squared magnitudes, `sqrt` instantiated by the
identity). -/
theorem C2_witness :
    cosineSimilarity (fun x : ℚ => x) [] [1] = 0 ∧
    cosineSimilarity (fun x : ℚ => x) [2] [3] = 6 / (4 * 9) := by
  constructor
  · exact (C2_cosineSimilarity_spec (fun x : ℚ => x) [] [1] none [] 0).1 (Or.inl rfl)
  · have h := ((C2_cosineSimilarity_spec (fun x : ℚ => x) [2] [3] none [] 0).2.1
      (by decide) rfl).2 (by norm_num [sumSq, dotProd]) (by norm_num [sumSq, dotProd])
    rw [h]
    norm_num [sumSq, dotProd]

theorem retryGo_error_events (e : Nat → List GoStr → Except ε (List (List α)))
    (texts : List GoStr) (s e5 : Nat) :
    ∀ (remaining c attempt : Nat) (err : ε),
      (retryGo e texts s e5 remaining c attempt).1 = .error err →
      (retryGo e texts s e5 remaining c attempt).2.2 =
        attemptSeq s e5 remaining attempt := by
  intro remaining
  induction remaining with
  | zero => intro c attempt err h; simp [retryGo] at h
  | succ n ih =>
    intro c attempt err h
    match n with
    | 0 =>
      simp only [retryGo] at h ⊢
      cases he : e c texts with
      | ok v => simp [he] at h
      | error err0 => simp only [he]; simp [attemptSeq]
    | n' + 1 =>
      simp only [retryGo] at h ⊢
      cases he : e c texts with
      | ok v => simp [he] at h
      | error err0 =>
        simp only [he] at h ⊢
        have h' : (retryGo e texts s e5 (n' + 1) (c + 1) (attempt + 1)).1 =
            .error err := by simpa using h
        simp only [attemptSeq]
        simp [ih (c + 1) (attempt + 1) err h']

theorem retryGo_tags (e : Nat → List GoStr → Except ε (List (List α)))
    (texts : List GoStr) (s e5 : Nat) :
    ∀ (remaining c attempt s' e' : Nat),
      ∀ ev ∈ (retryGo e texts s e5 remaining c attempt).2.2,
        isForBatch s' e' ev = (decide (s = s') && decide (e5 = e')) := by
  intro remaining
  induction remaining with
  | zero => intro c attempt s' e' ev hev; simp [retryGo] at hev
  | succ n ih =>
    intro c attempt s' e' ev hev
    match n with
    | 0 =>
      simp only [retryGo] at hev
      cases he : e c texts with
      | ok v =>
        simp only [he, List.mem_singleton] at hev
        rw [hev]; rfl
      | error err0 =>
        simp only [he, List.mem_singleton] at hev
        rw [hev]; rfl
    | n' + 1 =>
      simp only [retryGo] at hev
      cases he : e c texts with
      | ok v =>
        simp only [he, List.mem_singleton] at hev
        rw [hev]; rfl
      | error err0 =>
        simp only [he, List.mem_cons] at hev
        rcases hev with rfl | rfl | hev
        · rfl
        · rfl
        · exact ih (c + 1) (attempt + 1) s' e' ev hev

theorem eventsFor_attemptSeq (s e5 : Nat) :
    ∀ (n a : Nat), eventsFor s e5 (attemptSeq s e5 n a) = attemptSeq s e5 n a := by
  intro n
  induction n with
  | zero => intro a; simp [attemptSeq, eventsFor]
  | succ n ih =>
    intro a
    match n with
    | 0 => simp [attemptSeq, eventsFor, List.filter, isForBatch]
    | n' + 1 =>
      have h := ih (a + 1)
      simp only [attemptSeq, eventsFor, List.filter_cons] at h ⊢
      simp only [isForBatch, decide_True, Bool.and_self, if_true]
      simp [eventsFor] at h
      simpa using h

theorem eventsFor_retry_ne (e : Nat → List GoStr → Except ε (List (List α)))
    (texts : List GoStr) (s e5 remaining c attempt s' e' : Nat) (hne : s ≠ s') :
    eventsFor s' e' (retryGo e texts s e5 remaining c attempt).2.2 = [] := by
  rw [eventsFor, List.filter_eq_nil_iff]
  intro ev hev
  rw [retryGo_tags e texts s e5 remaining c attempt s' e' ev hev]
  simp [hne]

theorem buildGo_error_spec (e : Nat → List GoStr → Except ε (List (List α)))
    (bs : Nat) (hbs : 1 ≤ bs) :
    ∀ (fuel start c : Nat) (chunks : List (Chunk α)) (err : BuildError ε),
      (buildGo e bs fuel start c chunks).res = .error err →
      err.attempts = 5 ∧ start ≤ err.bstart ∧
      eventsFor err.bstart err.bend (buildGo e bs fuel start c chunks).events =
        attemptSeq err.bstart err.bend 5 0 := by
  intro fuel
  induction fuel with
  | zero => intro start c chunks err h; simp [buildGo] at h
  | succ fuel ih =>
    intro start c chunks err h
    by_cases hst : start < chunks.length
    · simp only [buildGo, if_pos hst] at h ⊢
      cases hr : (retryEmbed e ((batchOf chunks start
          (min (start + bs) chunks.length)).map Chunk.text) start
          (min (start + bs) chunks.length) c).1 with
      | error err0 =>
        -- this batch exhausted its retries
        simp only [hr] at h ⊢
        simp only [Except.error.injEq] at h
        subst h
        refine ⟨rfl, le_refl _, ?_⟩
        have hre := retryGo_error_events e _ start _ 5 c 0 err0 hr
        simp only [retryEmbed] at hre ⊢
        rw [hre]
        exact eventsFor_attemptSeq _ _ 5 0
      | ok vecs =>
        -- successful batch: the error comes from the recursive tail
        simp only [hr] at h ⊢
        by_cases hlt : start + bs <
            (assignGo start vecs (min (start + bs) chunks.length - start) 0 chunks).length
        · simp only [if_pos hlt] at h ⊢
          obtain ⟨ha, hle, hev⟩ := ih (start + bs) _ _ err h
          refine ⟨ha, le_trans (Nat.le_add_right start bs) hle, ?_⟩
          have hne : start ≠ err.bstart := by omega
          simp only [eventsFor, List.filter_append, List.filter_cons]
          have h1 : eventsFor err.bstart err.bend
              (retryEmbed e ((batchOf chunks start (min (start + bs) chunks.length)).map
                Chunk.text) start (min (start + bs) chunks.length) c).2.2 = [] :=
            eventsFor_retry_ne e _ _ _ _ _ _ _ _ hne
          simp only [eventsFor] at h1
          rw [h1]
          simpa [eventsFor, isForBatch] using hev
        · simp only [if_neg hlt] at h
          simp at h
    · simp only [buildGo, if_neg hst] at h
      simp at h

/-- Claim C3: whenever `BuildVectorStore` fails because the provider
failed every attempt for some batch, the returned error names that
batch's index range and the attempt count 5, the trace for that batch
consists of exactly 5 embed attempts with backoff sleeps of 1, 2, 3 and
4 seconds between consecutive attempts (10 seconds in total), and —
the result being an error — no store is returned. -/
theorem C3_retry_exhaustion (e? : Option (Nat → List GoStr → Except ε (List (List α))))
    (chunks : List (Chunk α)) (batchSize : Int) (meta : Metadata)
    (err : BuildError ε)
    (h : (buildVectorStore e? chunks batchSize meta).1 = .error (.embedFailed err)) :
    err.attempts = 5 ∧
    eventsFor err.bstart err.bend (buildVectorStore e? chunks batchSize meta).2.2 =
      [.attempt err.bstart err.bend 0, .backoff err.bstart err.bend 1,
       .attempt err.bstart err.bend 1, .backoff err.bstart err.bend 2,
       .attempt err.bstart err.bend 2, .backoff err.bstart err.bend 3,
       .attempt err.bstart err.bend 3, .backoff err.bstart err.bend 4,
       .attempt err.bstart err.bend 4] ∧
    ((eventsFor err.bstart err.bend
        (buildVectorStore e? chunks batchSize meta).2.2).filter isAttemptEv).length = 5 ∧
    ((eventsFor err.bstart err.bend
        (buildVectorStore e? chunks batchSize meta).2.2).map backoffSeconds).sum = 10 := by
  match e? with
  | none => simp [buildVectorStore] at h
  | some e =>
    simp only [buildVectorStore] at h ⊢
    by_cases hz : chunks.length = 0
    · have hnil : chunks = [] := List.length_eq_zero.mp hz
      subst hnil
      simp at h
    · simp only [if_neg hz] at h ⊢
      set bs : Nat := if batchSize ≤ 0 then 16 else batchSize.toNat with hbsdef
      have hbs : 1 ≤ bs := by
        rw [hbsdef]
        split
        · omega
        · rename_i hpos
          omega
      cases hout : (buildGo e bs (chunks.length + 1) 0 0 chunks).res with
      | ok u => simp [hout] at h
      | error err0 =>
        simp only [hout] at h ⊢
        simp only [Except.error.injEq, BuildFailure.embedFailed.injEq] at h
        subst h
        obtain ⟨ha, _, hev⟩ :=
          buildGo_error_spec e bs hbs (chunks.length + 1) 0 0 chunks err0 hout
        have hlist : eventsFor err0.bstart err0.bend
            (buildGo e bs (chunks.length + 1) 0 0 chunks).events =
            [.attempt err0.bstart err0.bend 0, .backoff err0.bstart err0.bend 1,
             .attempt err0.bstart err0.bend 1, .backoff err0.bstart err0.bend 2,
             .attempt err0.bstart err0.bend 2, .backoff err0.bstart err0.bend 3,
             .attempt err0.bstart err0.bend 3, .backoff err0.bstart err0.bend 4,
             .attempt err0.bstart err0.bend 4] := by
          rw [hev]; rfl
        exact ⟨ha, hlist, by rw [hlist]; rfl, by rw [hlist]; rfl⟩

/-- Witness for C3: building a one-chunk store with an always-failing
provider fails with the error naming batch `[0:1]` and 5 attempts, and
the trace holds exactly the 5 attempts with backoffs 1, 2, 3, 4 (10
seconds in total). -/
theorem C3_witness :
    (buildVectorStore (some failEmb) [wChunk3] 16 metaW).1 =
      .error (.embedFailed ⟨0, 1, 5, ['x']⟩) ∧
    eventsFor 0 1 (buildVectorStore (some failEmb) [wChunk3] 16 metaW).2.2 =
      [.attempt 0 1 0, .backoff 0 1 1, .attempt 0 1 1, .backoff 0 1 2,
       .attempt 0 1 2, .backoff 0 1 3, .attempt 0 1 3, .backoff 0 1 4,
       .attempt 0 1 4] ∧
    ((eventsFor 0 1 (buildVectorStore (some failEmb) [wChunk3] 16 metaW).2.2).map
      backoffSeconds).sum = 10 := by
  have h : (buildVectorStore (some failEmb) [wChunk3] 16 metaW).1 =
      .error (.embedFailed ⟨0, 1, 5, ['x']⟩) := rfl
  obtain ⟨_, h2, _, h4⟩ :=
    C3_retry_exhaustion (some failEmb) [wChunk3] 16 metaW ⟨0, 1, 5, ['x']⟩ h
  exact ⟨h, h2, h4⟩

theorem getD_set {β : Type} (l : List β) (i j : Nat) (a d : β) :
    (l.set i a).getD j d = if i = j ∧ j < l.length then a else l.getD j d := by
  by_cases hj : j < l.length
  · rw [List.getD_eq_getElem _ _ (by simpa using hj)]
    rw [List.getElem_set]
    by_cases hij : i = j
    · simp [hij, hj]
    · rw [if_neg hij, if_neg (by tauto), List.getD_eq_getElem _ _ hj]
  · rw [List.getD_eq_default _ _ (by simpa using Nat.le_of_not_lt hj),
      List.getD_eq_default _ _ (Nat.le_of_not_lt hj)]
    rw [if_neg (by tauto)]

theorem assignGo_map_eraseEmb (start : Nat) (vecs : List (List α)) :
    ∀ (rem off : Nat) (chunks : List (Chunk α)),
      (assignGo start vecs rem off chunks).map eraseEmb = chunks.map eraseEmb := by
  intro rem
  induction rem with
  | zero => intro off chunks; rfl
  | succ rem ih =>
    intro off chunks
    simp only [assignGo]
    rw [ih, List.map_set]
    by_cases h : start + off < chunks.length
    · apply List.ext_getElem
      · simp
      · intro n h1 h2
        rw [List.getElem_set]
        split
        · rename_i he
          subst he
          rw [List.getElem_map]
          rw [List.getD_eq_getElem _ _ h]
          rfl
        · rfl
    · rw [List.set_eq_of_length_le (by simpa using Nat.le_of_not_lt h)]

theorem assignGo_length (start : Nat) (vecs : List (List α)) (rem off : Nat)
    (chunks : List (Chunk α)) :
    (assignGo start vecs rem off chunks).length = chunks.length := by
  have h := congrArg List.length (assignGo_map_eraseEmb start vecs rem off chunks)
  simpa using h

theorem assignGo_getD (start : Nat) (vecs : List (List α)) :
    ∀ (rem off : Nat) (chunks : List (Chunk α)) (i : Nat),
      (assignGo start vecs rem off chunks).getD i dChunk =
        if start + off ≤ i ∧ i < start + off + rem ∧ i < chunks.length then
          { chunks.getD i dChunk with embedding := vecs.getD (i - start) [] }
        else chunks.getD i dChunk := by
  intro rem
  induction rem with
  | zero =>
    intro off chunks i
    rw [if_neg (by omega)]
    rfl
  | succ rem ih =>
    intro off chunks i
    simp only [assignGo]
    rw [ih]
    simp only [getD_set, List.length_set]
    have hfix : start + (off + 1) = start + off + 1 := by omega
    rw [hfix]
    by_cases hB : start + off = i ∧ i < chunks.length
    · rw [if_neg (by omega), if_pos hB, if_pos (by omega)]
      obtain ⟨he, _⟩ := hB
      rw [← he]
      simp
    · by_cases hA : start + off + 1 ≤ i ∧ i < start + off + 1 + rem ∧ i < chunks.length
      · rw [if_pos hA, if_neg hB, if_pos (by omega)]
      · rw [if_neg hA, if_neg hB, if_neg (by omega)]

theorem retryGo_ok_call (e : Nat → List GoStr → Except ε (List (List α)))
    (texts : List GoStr) (s e5 : Nat) :
    ∀ (remaining c attempt : Nat) (vecs : List (List α)),
      1 ≤ remaining →
      (retryGo e texts s e5 remaining c attempt).1 = .ok vecs →
      ∃ cIdx, e cIdx texts = .ok vecs := by
  intro remaining
  induction remaining with
  | zero => intro c attempt vecs h0 _; exact absurd h0 (by omega)
  | succ n ih =>
    intro c attempt vecs _ h
    match n with
    | 0 =>
      simp only [retryGo] at h
      cases he : e c texts with
      | ok v =>
        simp only [he, Except.ok.injEq] at h
        exact ⟨c, by rw [he, h]⟩
      | error err => simp [he] at h
    | n' + 1 =>
      simp only [retryGo] at h
      cases he : e c texts with
      | ok v =>
        simp only [he, Except.ok.injEq] at h
        exact ⟨c, by rw [he, h]⟩
      | error err =>
        simp only [he] at h
        exact ih (c + 1) (attempt + 1) vecs (by omega) (by simpa using h)

theorem batchOf_map_text_congr {l l' : List (Chunk α)}
    (h : l.map eraseEmb = l'.map eraseEmb) (s t : Nat) :
    (batchOf l s t).map Chunk.text = (batchOf l' s t).map Chunk.text := by
  have htext : l.map Chunk.text = l'.map Chunk.text := by
    have h1 : ∀ m : List (Chunk α), m.map Chunk.text = (m.map eraseEmb).map Chunk.text := by
      intro m
      rw [List.map_map]
      rfl
    rw [h1 l, h1 l', h]
  unfold batchOf
  rw [List.map_take, List.map_drop, List.map_take, List.map_drop, htext]

theorem eraseEmb_length_eq {l l' : List (Chunk α)}
    (h : l.map eraseEmb = l'.map eraseEmb) : l.length = l'.length := by
  have := congrArg List.length h
  simpa using this

theorem bStartFrom_shift (start bs i : Nat) (hbs : 1 ≤ bs) (hi : start + bs ≤ i) :
    bStartFrom (start + bs) bs i = bStartFrom start bs i := by
  unfold bStartFrom
  have h1 : i - start = (i - (start + bs)) + bs := by omega
  rw [h1]
  rw [Nat.add_div_right _ (by omega)]
  ring_nf

theorem bStartFrom_head (start bs i : Nat) (h1 : start ≤ i) (h2 : i < start + bs) :
    bStartFrom start bs i = start := by
  unfold bStartFrom
  have : (i - start) / bs = 0 := Nat.div_eq_of_lt (by omega)
  rw [this]
  omega

theorem buildGo_chunks_spec (e : Nat → List GoStr → Except ε (List (List α)))
    (bs : Nat) (hbs : 1 ≤ bs) :
    ∀ (fuel start c : Nat) (chunks : List (Chunk α)),
      ((buildGo e bs fuel start c chunks).chunks.map eraseEmb =
        chunks.map eraseEmb) ∧
      (∀ i, i < start →
        (buildGo e bs fuel start c chunks).chunks.getD i dChunk =
          chunks.getD i dChunk) ∧
      (∀ err, (buildGo e bs fuel start c chunks).res = .error err →
        (∀ i, err.bstart ≤ i →
          (buildGo e bs fuel start c chunks).chunks.getD i dChunk =
            chunks.getD i dChunk) ∧
        (∀ i, start ≤ i → i < err.bstart →
          ∃ cIdx vecs,
            e cIdx ((batchOf chunks (bStartFrom start bs i)
              (min (bStartFrom start bs i + bs) chunks.length)).map Chunk.text) =
                .ok vecs ∧
            (buildGo e bs fuel start c chunks).chunks.getD i dChunk =
              { chunks.getD i dChunk with
                  embedding := vecs.getD (i - bStartFrom start bs i) [] })) := by
  intro fuel
  induction fuel with
  | zero =>
    intro start c chunks
    refine ⟨rfl, fun i _ => rfl, fun err herr => ?_⟩
    simp [buildGo] at herr
  | succ fuel ih =>
    intro start c chunks
    by_cases hst : start < chunks.length
    · simp only [buildGo, if_pos hst]
      cases hr : (retryEmbed e ((batchOf chunks start
          (min (start + bs) chunks.length)).map Chunk.text) start
          (min (start + bs) chunks.length) c).1 with
      | error err0 =>
        simp only [hr]
        refine ⟨by trivial, fun i _ => by trivial, fun err herr => ?_⟩
        simp only [Except.error.injEq] at herr
        subst herr
        exact ⟨fun i _ => by trivial, fun i hsi hlt => absurd hlt (by simp; omega)⟩
      | ok vecs =>
        simp only [hr]
        by_cases hlt : start + bs <
            (assignGo start vecs (min (start + bs) chunks.length - start) 0 chunks).length
        · simp only [if_pos hlt]
          have hlen : (assignGo start vecs (min (start + bs) chunks.length - start)
              0 chunks).length = chunks.length := assignGo_length _ _ _ _ _
          have hltlen : start + bs < chunks.length := by rw [← hlen]; exact hlt
          have he_ : min (start + bs) chunks.length = start + bs :=
            min_eq_left (le_of_lt hltlen)
          obtain ⟨ih1, ih2, ih3⟩ := ih (start + bs)
            (retryEmbed e ((batchOf chunks start
              (min (start + bs) chunks.length)).map Chunk.text) start
              (min (start + bs) chunks.length) c).2.1
            (assignGo start vecs (min (start + bs) chunks.length - start) 0 chunks)
          have hmap : (assignGo start vecs (min (start + bs) chunks.length - start)
              0 chunks).map eraseEmb = chunks.map eraseEmb :=
            assignGo_map_eraseEmb _ _ _ _ _
          refine ⟨by rw [ih1, hmap], ?_, ?_⟩
          · intro i hi
            rw [ih2 i (by omega), assignGo_getD, if_neg (by omega)]
          · intro err herr
            have hbst : start + bs ≤ err.bstart :=
              (buildGo_error_spec e bs hbs fuel (start + bs) _ _ err herr).2.1
            refine ⟨?_, ?_⟩
            · intro i hi
              rw [(ih3 err herr).1 i hi, assignGo_getD, if_neg (by omega)]
            · intro i hsi hlt'
              by_cases hhead : i < start + bs
              · -- `i` lies in this (successful) head batch
                have hfinal : (buildGo e bs fuel (start + bs) _ _).chunks.getD i dChunk =
                    (assignGo start vecs (min (start + bs) chunks.length - start)
                      0 chunks).getD i dChunk := ih2 i hhead
                have hass : (assignGo start vecs (min (start + bs) chunks.length - start)
                    0 chunks).getD i dChunk =
                    { chunks.getD i dChunk with embedding := vecs.getD (i - start) [] } := by
                  rw [assignGo_getD, if_pos (by omega)]
                obtain ⟨cIdx, hcall⟩ := retryGo_ok_call e _ start
                  (min (start + bs) chunks.length) 5 c 0 vecs (by omega) hr
                refine ⟨cIdx, vecs, ?_, ?_⟩
                · rw [bStartFrom_head start bs i hsi hhead]
                  exact hcall
                · rw [hfinal, hass, bStartFrom_head start bs i hsi hhead]
              · -- `i` lies in a later batch handled by the recursive call
                obtain ⟨cIdx, vecs', hcall, hval⟩ :=
                  (ih3 err herr).2 i (by omega) hlt'
                have hshift : bStartFrom (start + bs) bs i = bStartFrom start bs i :=
                  bStartFrom_shift start bs i hbs (by omega)
                rw [hshift] at hcall hval
                have htexts : ((batchOf (assignGo start vecs
                    (min (start + bs) chunks.length - start) 0 chunks)
                    (bStartFrom start bs i)
                    (min (bStartFrom start bs i + bs)
                      (assignGo start vecs (min (start + bs) chunks.length - start)
                        0 chunks).length)).map Chunk.text) =
                    ((batchOf chunks (bStartFrom start bs i)
                      (min (bStartFrom start bs i + bs) chunks.length)).map Chunk.text) := by
                  rw [hlen]
                  exact batchOf_map_text_congr hmap _ _
                rw [htexts] at hcall
                have hunass : (assignGo start vecs
                    (min (start + bs) chunks.length - start) 0 chunks).getD i dChunk =
                    chunks.getD i dChunk := by
                  rw [assignGo_getD, if_neg (by omega)]
                rw [hunass] at hval
                exact ⟨cIdx, vecs', hcall, hval⟩
        · simp only [if_neg hlt]
          refine ⟨assignGo_map_eraseEmb _ _ _ _ _, ?_, fun err herr => by simp at herr⟩
          intro i hi
          rw [assignGo_getD, if_neg (by omega)]
    · simp only [buildGo, if_neg hst]
      exact ⟨by trivial, fun i _ => by trivial, fun err herr => by simp at herr⟩

/-- Claim C8: `BuildVectorStore` writes embeddings in place into the
caller-supplied chunk list, modifying only each chunk's embedding field
(the `eraseEmb` images are untouched); on success the returned store
wraps the supplied metadata and that same (mutated) list; and when a
later batch fails, the chunks from the failing batch onward are exactly
the caller's originals while every chunk of an earlier successful batch
carries the embedding taken positionally from a successful provider
response for its batch — the input is not rolled back. -/
theorem C8_build_in_place (e : Nat → List GoStr → Except ε (List (List α)))
    (chunks : List (Chunk α)) (batchSize : Int) (meta : Metadata) :
    ((buildVectorStore (some e) chunks batchSize meta).2.1.map eraseEmb =
      chunks.map eraseEmb) ∧
    (∀ st, (buildVectorStore (some e) chunks batchSize meta).1 = .ok st →
      st.metadata = meta ∧
      st.chunks = (buildVectorStore (some e) chunks batchSize meta).2.1) ∧
    (∀ err, (buildVectorStore (some e) chunks batchSize meta).1 =
        .error (.embedFailed err) →
      (∀ i, err.bstart ≤ i →
        (buildVectorStore (some e) chunks batchSize meta).2.1.getD i dChunk =
          chunks.getD i dChunk) ∧
      (∀ i, i < err.bstart →
        ∃ cIdx vecs,
          e cIdx ((batchOf chunks (bStartFrom 0 (effBatchSize batchSize) i)
            (min (bStartFrom 0 (effBatchSize batchSize) i + effBatchSize batchSize)
              chunks.length)).map Chunk.text) = .ok vecs ∧
          (buildVectorStore (some e) chunks batchSize meta).2.1.getD i dChunk =
            { chunks.getD i dChunk with
                embedding :=
                  vecs.getD (i - bStartFrom 0 (effBatchSize batchSize) i) [] })) := by
  have hbs : 1 ≤ effBatchSize batchSize := by
    unfold effBatchSize
    split
    · omega
    · rename_i hpos; omega
  simp only [buildVectorStore]
  by_cases hz : chunks.length = 0
  · have hnil : chunks = [] := List.length_eq_zero.mp hz
    subst hnil
    exact ⟨by trivial, fun st hst => by simp at hst, fun err herr => by simp at herr⟩
  · simp only [if_neg hz]
    obtain ⟨h1, _, h3⟩ := buildGo_chunks_spec e (effBatchSize batchSize) hbs
      (chunks.length + 1) 0 0 chunks
    cases hout : (buildGo e (effBatchSize batchSize) (chunks.length + 1) 0 0 chunks).res with
    | ok u =>
      simp only [show (if batchSize ≤ 0 then (16 : Nat) else batchSize.toNat) =
        effBatchSize batchSize from rfl, hout]
      refine ⟨h1, ?_, fun err herr => by simp at herr⟩
      intro st hst
      simp only [Except.ok.injEq] at hst
      subst hst
      exact ⟨rfl, rfl⟩
    | error err0 =>
      simp only [show (if batchSize ≤ 0 then (16 : Nat) else batchSize.toNat) =
        effBatchSize batchSize from rfl, hout]
      refine ⟨h1, fun st hst => by simp at hst, fun err herr => ?_⟩
      simp only [Except.error.injEq, BuildFailure.embedFailed.injEq] at herr
      subst herr
      obtain ⟨ha, hb⟩ := h3 err0 hout
      exact ⟨ha, fun i hi => hb i (Nat.zero_le i) hi⟩

/-- Witness for C8: a successful build (batch size 1, two chunks) keeps
every non-embedding field and returns a store wrapping the mutated
list, and a build whose second batch always fails leaves the chunk of
that failing batch untouched while no store is returned. -/
theorem C8_witness :
    (buildVectorStore (some okEmb) [k81, k82] 1 metaW).2.1.map eraseEmb =
      [k81, k82].map eraseEmb ∧
    sW.metadata = metaW ∧
    sW.chunks = (buildVectorStore (some okEmb) [k81, k82] 1 metaW).2.1 ∧
    (buildVectorStore (some failAfterFirst) [k81, k82] 1 metaW).2.1.getD 1 dChunk =
      [k81, k82].getD 1 dChunk := by
  have h1 := (C8_build_in_place okEmb [k81, k82] 1 metaW).1
  have h2 := (C8_build_in_place okEmb [k81, k82] 1 metaW).2.1 sW rfl
  have h3 := ((C8_build_in_place failAfterFirst [k81, k82] 1 metaW).2.2
    ⟨1, 2, 5, ['x']⟩ rfl).1 1 (le_refl 1)
  exact ⟨h1, h2.1, h2.2, h3⟩

theorem decodeInt_num (n : Int) : decodeInt (.num (n : ℚ)) = .ok n := by
  simp [decodeInt, Rat.den_intCast, Rat.num_intCast]

theorem decodeAll_num (l : List ℚ) : decodeAll decodeNum (l.map .num) = .ok l := by
  induction l with
  | nil => rfl
  | cons x xs ih => simp [decodeAll, decodeNum, ih]

theorem decodeAll_str (l : List GoStr) : decodeAll decodeStr (l.map .str) = .ok l := by
  induction l with
  | nil => rfl
  | cons x xs ih => simp [decodeAll, decodeStr, ih]

theorem unmarshalChunk_marshal (c : Chunk ℚ) :
    unmarshalChunk (marshalChunk c) = .ok c := by
  simp [unmarshalChunk, marshalChunk, decodeField, jLookup, decodeStr,
    decodeInt_num, decodeList, decodeAll_num]

theorem unmarshalMeta_marshal (m : Metadata) :
    unmarshalMeta (marshalMeta m) = .ok m := by
  simp [unmarshalMeta, marshalMeta, decodeField, jLookup, decodeStr,
    decodeInt_num, decodeList, decodeAll_str]

theorem decodeAll_chunks (l : List (Chunk ℚ)) :
    decodeAll unmarshalChunk (l.map marshalChunk) = .ok l := by
  induction l with
  | nil => rfl
  | cons x xs ih => simp [decodeAll, unmarshalChunk_marshal, ih]

/-- Claim C4: loading the document `Save` writes for any store
reproduces a store with identical metadata and chunk list — all fields,
values, and order, embeddings included. -/
theorem C4_save_load_roundtrip (vs : VectorStore ℚ) :
    LoadVectorStore (VectorStore.Save vs) = .ok vs := by
  simp [LoadVectorStore, VectorStore.Save, decodeField, jLookup,
    unmarshalMeta_marshal, decodeList, decodeAll_chunks]

/-- Claim C7: whenever `AddSource` returns an error — in particular when
embedding any chunk fails — the store is unchanged: no chunks are
appended and the metadata (source count, chunk count, generation
timestamp) keeps its prior value.  (The embed loop only mutates its
local chunk list; the store is touched only after every chunk embedded.) -/
theorem C7_addSource_aborts_unchanged (e : Nat → List GoStr → Except GoStr (List (List α)))
    (store? : Option (VectorStore α)) (title content uri now : GoStr) (msg : GoStr)
    (h : (addSource e store? title content uri now).1 = .error msg) :
    (addSource e store? title content uri now).2 = store? := by
  match store? with
  | none => rfl
  | some store =>
    simp only [addSource] at h ⊢
    by_cases hc : content = []
    · rw [if_pos hc]
    · rw [if_neg hc] at h ⊢
      split at h
      · rename_i msg' heq
        simp [heq]
      · rename_i cs heq
        simp [heq] at h

/-- Witness for C7: adding a source with an always-failing provider
returns the embed error and leaves the store exactly as it was. -/
theorem C7_witness :
    (addSource failEmb (some sw7) ['t'] ['x'] [] []).2 = some sw7 ∧
    (addSource failEmb (some sw7) ['t'] ['x'] [] []).1 =
      .error ("failed to embed chunk: ".toList ++ ['x']) := by
  have h : (addSource failEmb (some sw7) ['t'] ['x'] [] []).1 =
      .error ("failed to embed chunk: ".toList ++ ['x']) := rfl
  exact ⟨C7_addSource_aborts_unchanged failEmb (some sw7) ['t'] ['x'] [] [] _ h, h⟩

/-- Claim C10 (amended: the document's content must be non-empty —
the spec's chunker yields zero chunks for empty content): a document
whose content length in code points is at most the configured chunk
size produces exactly one chunk whose text is the whole content. -/
theorem C10_single_chunk (doc : Document) (opts : ChunkOptions)
    (hne : doc.content ≠ [])
    (hlen : (doc.content.length : Int) ≤ (if opts.size ≤ 0 then 1200 else opts.size)) :
    ∃ c : Chunk α, chunkDocuments [doc] opts = [c] ∧ c.text = doc.content := by
  refine ⟨⟨doc.id ++ "-chunk-".toList ++ natToStr 0, doc.id, doc.source, doc.uri,
    doc.content, 0, []⟩, ?_, rfl⟩
  have hs1 : (chunkOptsNorm opts).1 =
      (if opts.size ≤ 0 then (1200 : Int) else opts.size).toNat := rfl
  have hpos : (0 : Int) ≤ (if opts.size ≤ 0 then (1200 : Int) else opts.size) := by
    split
    · omega
    · rename_i hgt; omega
  have hsz : doc.content.length ≤ (chunkOptsNorm opts).1 := by
    rw [hs1]
    exact (Int.le_toNat hpos).mpr hlen
  simp only [chunkDocuments, List.map, chunkOne, if_neg hne, List.join, List.append_nil]
  rw [windowsGo]
  rw [if_pos (by simpa using hsz)]
  simp [List.enum]

/-- Witness for C10 at a concrete input: a 2-code-point document with
chunk size 1200 yields exactly one chunk holding the whole content. -/
theorem C10_witness :
    ∃ c : Chunk ℚ, chunkDocuments [wDoc] ⟨1200, 200⟩ = [c] ∧ c.text = wDoc.content :=
  C10_single_chunk wDoc ⟨1200, 200⟩ (by decide) (by decide)

/-- Counterexample to C10 as stated: the empty document's content length
(0 code points) is at most the chunk size, yet chunking produces zero
chunks, not one chunk equal to the whole content — the spec itself says
empty content yields zero chunks for that document. -/
theorem C10_counterexample :
    (chunkDocuments [emptyDoc] ⟨1200, 200⟩ : List (Chunk ℚ)) = [] ∧
    emptyDoc.content.length = 0 ∧
    ¬ ∃ c : Chunk ℚ, chunkDocuments [emptyDoc] ⟨1200, 200⟩ = [c] ∧
        c.text = emptyDoc.content := by
  refine ⟨rfl, rfl, ?_⟩
  rintro ⟨c, hc, -⟩
  rw [show (chunkDocuments [emptyDoc] ⟨1200, 200⟩ : List (Chunk ℚ)) = [] from rfl] at hc
  exact List.cons_ne_nil c [] hc.symm

/-- Claim C9: the claim asserts the store file is never left partially
written (old content or complete new serialization only).  `Save`
writes with a plain `os.WriteFile` — truncate-then-write, no
temporary-file-and-rename — so a write that stops after `k` bytes
leaves a strict prefix of the new data: with previous content
`[1, 2, 3]` and new serialization `[9, 8, 7, 6, 5]`, an interruption
after 2 bytes leaves `[9, 8]`, which is neither the old nor the
complete new content. -/
theorem C9_save_can_leave_prefix :
    saveWriteFile [9, 8, 7, 6, 5] none = [9, 8, 7, 6, 5] ∧
    saveWriteFile [9, 8, 7, 6, 5] (some 2) = [9, 8] ∧
    saveWriteFile [9, 8, 7, 6, 5] (some 2) ≠ [1, 2, 3] ∧
    saveWriteFile [9, 8, 7, 6, 5] (some 2) ≠ [9, 8, 7, 6, 5] := by
  refine ⟨rfl, rfl, by decide, by decide⟩

/-- Structure of a successful `Answer` call: the query embedding comes
from the embed oracle, the completion from the chat oracle, and the
source attributions are built match-by-match from the heap search
results. -/
theorem answer_ok_sources (sqrt : α → α)
    (embed : List GoStr → Except GoStr (List (List α)))
    (complete : GoStr → GoStr → ℚ → Except GoStr GoStr)
    (store? : Option (VectorStore α)) (sys : GoStr) (dk : Int) (q : GoStr)
    (tk : Int) (temp : ℚ) (a : AnswerOut α)
    (h : answer sqrt embed complete store? sys dk q tk temp = .ok a) :
    ∃ embs ans,
      embed [trimSpace q] = .ok embs ∧
      complete sys (buildPrompt (trimSpace q)
        (searchHeap sqrt store? (embs.getD 0 []) (if tk ≤ 0 then dk else tk)))
        (if temp = 0 then 0.2 else temp) = .ok ans ∧
      a.answer = trimSpace ans ∧
      a.sources = (searchHeap sqrt store? (embs.getD 0 [])
        (if tk ≤ 0 then dk else tk)).map
        (fun m => ⟨m.chunk.source, m.chunk.uri, snippetOf m.chunk.text, m.score⟩) := by
  match store? with
  | none => simp [answer] at h
  | some store =>
    simp only [answer] at h
    by_cases ht : trimSpace q = []
    · rw [if_pos ht] at h; simp at h
    · rw [if_neg ht] at h
      cases he : embed [trimSpace q] with
      | error msg => simp [he] at h
      | ok embs =>
        simp only [he] at h
        by_cases hlen : embs.length = 0
        · rw [if_pos hlen] at h; simp at h
        · rw [if_neg hlen] at h
          by_cases hm : (searchHeap sqrt (some store) (embs.getD 0 [])
              (if tk ≤ 0 then dk else tk)).length = 0
          · rw [if_pos hm] at h; simp at h
          · rw [if_neg hm] at h
            cases hc : complete sys (buildPrompt (trimSpace q)
                (searchHeap sqrt (some store) (embs.getD 0 [])
                  (if tk ≤ 0 then dk else tk)))
                (if temp = 0 then 0.2 else temp) with
            | error msg => rw [hc] at h; simp at h
            | ok ans =>
              simp only [hc, Except.ok.injEq] at h
              exact ⟨embs, ans, rfl, hc, by rw [← h], by rw [← h]⟩

/-- Claim C6 (amended: the 400-long truncation of the snippet is
measured in UTF-8 bytes, as `len` and slicing act on bytes in Go, not
in characters): for every successful `Answer` call the attributions are
in one-to-one correspondence with the search matches, each carrying the
match's source title, URI and similarity score together with the
snippet; and the snippet of any text is its whitespace-trimmed form
when that is at most 400 bytes, and otherwise its first 400 bytes with
the three-byte ellipsis marker appended (403 bytes in total). -/
theorem C6_answer_snippets (sqrt : α → α)
    (embed : List GoStr → Except GoStr (List (List α)))
    (complete : GoStr → GoStr → ℚ → Except GoStr GoStr)
    (store? : Option (VectorStore α)) (sys : GoStr) (dk : Int) (q : GoStr)
    (tk : Int) (temp : ℚ) (a : AnswerOut α)
    (h : answer sqrt embed complete store? sys dk q tk temp = .ok a) :
    (∃ embs, embed [trimSpace q] = .ok embs ∧
      a.sources = (searchHeap sqrt store? (embs.getD 0 [])
        (if tk ≤ 0 then dk else tk)).map
        (fun m => ⟨m.chunk.source, m.chunk.uri, snippetOf m.chunk.text, m.score⟩)) ∧
    (∀ t : GoStr, (strBytes (trimSpace t)).length ≤ 400 →
      snippetOf t = strBytes (trimSpace t)) ∧
    (∀ t : GoStr, 400 < (strBytes (trimSpace t)).length →
      snippetOf t = (strBytes (trimSpace t)).take 400 ++
        strBytes ('.' :: '.' :: '.' :: []) ∧
      (snippetOf t).length = 403) := by
  obtain ⟨embs, ans, he, _, _, hsrc⟩ :=
    answer_ok_sources sqrt embed complete store? sys dk q tk temp a h
  refine ⟨⟨embs, he, hsrc⟩, ?_, ?_⟩
  · intro t hle
    unfold snippetOf
    rw [if_neg (by omega)]
  · intro t hgt
    have heq : snippetOf t = (strBytes (trimSpace t)).take 400 ++
        strBytes ('.' :: '.' :: '.' :: []) := by
      unfold snippetOf
      rw [if_pos hgt]
    refine ⟨heq, ?_⟩
    rw [heq, List.length_append, List.length_take]
    have : min 400 (strBytes (trimSpace t)).length = 400 :=
      min_eq_left (le_of_lt hgt)
    rw [this]
    decide

/-- Witness for C6: a successful `Answer` over the one-chunk store
returns one attribution pairing the chunk's source, URI and score with
the snippet, and the snippet of the short text `"hi"` is its own UTF-8
bytes `[104, 105]`. -/
theorem C6_witness :
    answer (fun x : ℚ => x) e6w c6w (some store6w) [] 4 ['q'] 1 1 =
      .ok ⟨['o', 'k'], [⟨['s'], ['u'], [104, 105], 0⟩]⟩ ∧
    snippetOf ['h', 'i'] = [104, 105] := by
  have h : answer (fun x : ℚ => x) e6w c6w (some store6w) [] 4 ['q'] 1 1 =
      .ok ⟨['o', 'k'], [⟨['s'], ['u'], [104, 105], 0⟩]⟩ := rfl
  have h2 := (C6_answer_snippets (fun x : ℚ => x) e6w c6w (some store6w) [] 4
    ['q'] 1 1 _ h).2.1 ['h', 'i'] (by decide)
  exact ⟨h, by rw [h2]; decide⟩

set_option maxRecDepth 8000 in
/-- Counterexample to C6 as stated: `t6` is 201 characters long — at
most 400 characters, so under the claim's reading (lengths in
characters) the snippet must be the whole trimmed text with no
ellipsis.  The code instead measures bytes: `t6` has 402 bytes, so the
successful `Answer` truncates it to 400 bytes and appends the ellipsis,
and the resulting snippet differs from the claim's snippet. -/
theorem C6_counterexample :
    t6.length = 201 ∧
    claimSnippetChars t6 = t6 ∧
    answer (fun x : ℚ => x) e6w c6w (some store6x) [] 4 ['q'] 1 1 =
      .ok ⟨['o', 'k'], [⟨['s'], ['u'],
        (strBytes t6).take 400 ++ strBytes ('.' :: '.' :: '.' :: []), 0⟩]⟩ ∧
    (strBytes t6).take 400 ++ strBytes ('.' :: '.' :: '.' :: []) ≠
      strBytes (claimSnippetChars t6) := by
  refine ⟨by decide, by decide, rfl, by decide⟩

end Rag

















